import Mathlib

/-!
# Verification of the E2B sandbox fleet lifecycle program (`src/main.py`)

Shallow embedding of `main.py`: the per-credential lifecycle loop
(`run_sandbox_lifecycle`) and the fleet supervisor (`main_async`).

The program's interaction with the outside world (the E2B provider, the
random number generator, the workload command) is modelled by an `Oracle`
supplying, per cycle and per attempt, the outcome of each connection
attempt, the raw values drawn from the random source, and the behaviour
of the command execution phase.  `random.randint a b` is modelled as
`a + r % (b - a + 1)` on a raw nonnegative draw `r`, which realises
exactly the values of the inclusive range `[a, b]` when `a ≤ b`.

The lifecycle loop is an infinite `while True:` loop; we embed it with a
fuel parameter bounding the number of iterations, producing the list of
observable events (log lines / sleeps / session creation and teardown)
together with a flag telling whether the loop returned (abandoned its
key) within that fuel.  Command output strings are modelled as `List Char`.
-/

/-- A live sandbox session handle (`AsyncSandbox` instance), opaque. -/
structure Session where
  sid : Nat
  deriving DecidableEq, Repr

/-- `MAX_CONNECTION_ATTEMPTS = 10` from `main.py`. -/
def MAX_CONNECTION_ATTEMPTS : Nat := 10

/-- `random.randint a b` (inclusive bounds), driven by a raw draw `r`. -/
def randint (a b r : Nat) : Nat := a + r % (b - a + 1)

/-- Result of `CommandHandle.wait` bounded by the run time:
either the process finished (with exit code and captured output) within
the run window, or `asyncio.wait_for` raised `TimeoutError` because the
command was still running at the deadline. -/
inductive WaitResult where
  | finished (exitCode : Int) (stdout stderr : List Char)
  | stillRunning
  deriving DecidableEq, Repr

/-- What happens inside one `try:` block of the command-execution phase:
either the waits all resolve normally with a `WaitResult`, or some
exception is raised while starting or observing the command. -/
inductive CycleBehavior where
  | ok (w : WaitResult)
  | raises
  deriving DecidableEq, Repr

/-- Classified outcome of one timed run cycle. -/
inductive RunOutcome where
  | success (stdoutPreview stderrPreview : List Char)
  | failed (exitCode : Int) (stdoutPreview stderrPreview : List Char)
  | timedOutRunning
  | cycleError
  deriving DecidableEq, Repr

/-- `proc.stdout[:500]`: the bounded output preview printed by the loop. -/
def outputPreview (s : List Char) : List Char := s.take 500

/-- The outcome classification of lines 139–157 of `main.py`:
exit code 0 means success, nonzero means failure (both report output
previews), and `asyncio.TimeoutError` means the process is still running
at the deadline — the expected case, not an error. -/
def classifyOutcome : WaitResult → RunOutcome
  | .finished code out err =>
      if code = 0 then .success (outputPreview out) (outputPreview err)
      else .failed code (outputPreview out) (outputPreview err)
  | .stillRunning => .timedOutRunning

/-- Observable events of one credential's lifecycle loop, tagged with the
iteration (cycle) index of the enclosing `while True:` loop. -/
inductive Event where
  | attemptFail (cycle attempt : Nat)
  | failSleep (cycle attempt d : Nat)
  | sessionCreated (cycle : Nat)
  | abandon (cycle : Nat)
  | safeguardReturn (cycle : Nat)
  | runDrawn (cycle d : Nat)
  | downDrawn (cycle d : Nat)
  | cycleOutcome (cycle : Nat) (r : RunOutcome)
  | sessionReleased (cycle : Nat)
  | cooldownSleep (cycle d : Nat)
  deriving DecidableEq, Repr

/-- The cycle tag an event carries. -/
def Event.cycleOf : Event → Nat
  | .attemptFail c _ => c
  | .failSleep c _ _ => c
  | .sessionCreated c => c
  | .abandon c => c
  | .safeguardReturn c => c
  | .runDrawn c _ => c
  | .downDrawn c _ => c
  | .cycleOutcome c _ => c
  | .sessionReleased c => c
  | .cooldownSleep c _ => c

/-- How the connection retry loop of lines 100–116 is exited:
`abandoned` models the `return` after the last failed attempt;
`exited inst` models reaching the code after the `for` loop with
`sbx_instance = inst` (via `break` on success, or — hypothetically — by
exhausting the `for` range without a `break`). -/
inductive ConnectResult where
  | abandoned
  | exited (inst : Option Session)
  deriving DecidableEq, Repr

/-- The connection retry loop (`for attempt in range(MAX_CONNECTION_ATTEMPTS)`)
starting at attempt index `attempt` with `rem` range elements left.
`outcome a` is what `AsyncSandbox.create` does at attempt `a`
(`some s` = a session is created, `none` = it raises); `coolRand a` is the
raw draw behind `random.randint(60, 250)` after failed attempt `a`. -/
def connectAttempts (cycle : Nat) (outcome : Nat → Option Session)
    (coolRand : Nat → Nat) : Nat → Nat → ConnectResult × List Event
  | _attempt, 0 => (.exited none, [])
  | attempt, rem + 1 =>
    match outcome attempt with
    | some s => (.exited (some s), [.sessionCreated cycle])
    | none =>
      if attempt < MAX_CONNECTION_ATTEMPTS - 1 then
        let d := randint 60 250 (coolRand attempt)
        let rest := connectAttempts cycle outcome coolRand (attempt + 1) rem
        (rest.1, .attemptFail cycle attempt :: .failSleep cycle attempt d :: rest.2)
      else
        (.abandoned, [.attemptFail cycle attempt])

/-- The whole connect phase of one `while True:` iteration: the retry loop
run from attempt 0 with the full `MAX_CONNECTION_ATTEMPTS` range. -/
def connectPhase (cycle : Nat) (outcome : Nat → Option Session)
    (coolRand : Nat → Nat) : ConnectResult × List Event :=
  connectAttempts cycle outcome coolRand 0 MAX_CONNECTION_ATTEMPTS

/-- Events of the `try: async with sbx_instance as sbx: ...` block of one
cycle.  On a normal wait the outcome is printed inside the `async with`
block, whose exit then tears the session down; on an exception the
`async with` exit tears the session down while the exception propagates
to the `except` handler, which records the cycle error. -/
def runCycleEvents (cycle : Nat) (b : CycleBehavior) : List Event :=
  match b with
  | .ok w => [.cycleOutcome cycle (classifyOutcome w), .sessionReleased cycle]
  | .raises => [.sessionReleased cycle, .cycleOutcome cycle .cycleError]

/-- The external behaviour driving one credential's lifecycle:
`connectOutcome c a` resolves connection attempt `a` of cycle `c`;
`failCoolRand c a` is the raw draw behind the inter-attempt cooldown;
`runRand c` / `downRand c` are the raw draws behind the run-time and
downtime of cycle `c`; `cycleBehavior c` is what the command phase does. -/
structure Oracle where
  connectOutcome : Nat → Nat → Option Session
  failCoolRand : Nat → Nat → Nat
  runRand : Nat → Nat
  downRand : Nat → Nat
  cycleBehavior : Nat → CycleBehavior

/-- The four timing bounds passed to `run_sandbox_lifecycle`. -/
structure TimingConfig where
  runTimeMin : Nat
  runTimeMax : Nat
  downtimeMin : Nat
  downtimeMax : Nat
  deriving DecidableEq, Repr

/-- `run_sandbox_lifecycle`'s `while True:` loop, starting at cycle index
`c`, bounded by `fuel` iterations.  Returns the trace of events and
whether the function returned (`true`) within the given fuel.
Each iteration: run the connect phase; on abandonment return; on the
(unreachable) safeguard `if not sbx_instance: return` return; otherwise
draw `run_time` and `downtime`, execute the command phase, sleep the
cooldown, and continue with the next iteration. -/
def lifecycleFrom (o : Oracle) (cfg : TimingConfig) : Nat → Nat → List Event × Bool
  | _c, 0 => ([], false)
  | c, fuel + 1 =>
    let conn := connectPhase c (o.connectOutcome c) (o.failCoolRand c)
    match conn.1 with
    | .abandoned => (conn.2 ++ [.abandon c], true)
    | .exited none => (conn.2 ++ [.safeguardReturn c], true)
    | .exited (some _) =>
      let rt := randint cfg.runTimeMin cfg.runTimeMax (o.runRand c)
      let dt := randint cfg.downtimeMin cfg.downtimeMax (o.downRand c)
      let rest := lifecycleFrom o cfg (c + 1) fuel
      (conn.2 ++ .runDrawn c rt :: .downDrawn c dt ::
        (runCycleEvents c (o.cycleBehavior c) ++ .cooldownSleep c dt :: rest.1),
       rest.2)

/-- The lifecycle loop from its first iteration. -/
def lifecycleTrace (o : Oracle) (cfg : TimingConfig) (fuel : Nat) : List Event :=
  (lifecycleFrom o cfg 0 fuel).1

/-- Key-deduplication loop of `main_async` (lines 181–186): walk the
input, keep a `seen` set and append each not-yet-seen key to `keys`. -/
def buildKeys (keys seen : List String) : List String → List String
  | [] => keys
  | k :: rest =>
    if k ∈ seen then buildKeys keys seen rest
    else buildKeys (keys ++ [k]) (k :: seen) rest

/-- The deduplicated key list assembled by `main_async` from the
environment-derived keys followed by the `--key` arguments. -/
def dedupKeys (l : List String) : List String := buildKeys [] [] l

/-- Structural reformulation of first-seen deduplication, used to reason
about `buildKeys`: keep the head, drop its later duplicates, recurse. -/
def dedupFS : List String → List String
  | [] => []
  | k :: rest => k :: dedupFS (rest.filter (fun x => x ≠ k))
termination_by l => l.length
decreasing_by
  simp only [List.length_cons]
  exact Nat.lt_succ_of_le (List.length_filter_le _ _)

/-- Fleet-supervisor events: launching loop `idx` with its key, and the
grace-period sleep after launch `idx`. -/
inductive FleetEvent where
  | launch (idx : Nat) (key : String)
  | grace (idx d : Nat)
  deriving DecidableEq, Repr

/-- The launch loop of `main_async` (lines 196–212), at index `i` with
`rem` indices below `len(keys)` remaining (the `break` at
`i >= len(keys)` is the fuel running out): launch the task for `keys[i]`,
then, if `i < len(keys) - 1`, sleep a grace period drawn by
`random.randint(30, 45)` before the next launch. -/
def launchFrom (keys : List String) (graceRand : Nat → Nat) : Nat → Nat → List FleetEvent
  | _i, 0 => []
  | i, rem + 1 =>
    .launch i (keys.getD i "") ::
      (if i < keys.length - 1 then
        .grace i (randint 30 45 (graceRand i)) :: launchFrom keys graceRand (i + 1) rem
      else
        launchFrom keys graceRand (i + 1) rem)

/-- The fleet launch sequence for a deduplicated key list. -/
def launchFleet (keys : List String) (graceRand : Nat → Nat) : List FleetEvent :=
  launchFrom keys graceRand 0 keys.length

/-- The fatal startup errors of `main_async`. -/
inductive ConfigError where
  | runMinGtMax
  | downMinGtMax
  | noKeys
  deriving DecidableEq, Repr

/-- The parsed command-line arguments that `main_async` consumes. -/
structure Args where
  keys : List String
  runTimeMin : Nat
  runTimeMax : Nat
  downtimeMin : Nat
  downtimeMax : Nat

/-- The startup validation of `main_async` (lines 175–189): reject
`run_time_min > run_time_max`, then `downtime_min > downtime_max`, then
build the deduplicated key list from environment keys followed by CLI
keys and reject it if empty; otherwise hand back the key roster. -/
def mainValidate (envKeys : List String) (a : Args) : Except ConfigError (List String) :=
  if a.runTimeMin > a.runTimeMax then .error .runMinGtMax
  else if a.downtimeMin > a.downtimeMax then .error .downMinGtMax
  else
    let keys := dedupKeys (envKeys ++ a.keys)
    if keys.isEmpty then .error .noKeys
    else .ok keys

/-- `main_async` up to the launch phase: validation followed by the
staggered fleet launch (the per-loop lifecycles are `lifecycleFrom`). -/
def mainAsync (envKeys : List String) (a : Args) (graceRand : Nat → Nat) :
    Except ConfigError (List FleetEvent) :=
  (mainValidate envKeys a).map (fun keys => launchFleet keys graceRand)

/-- The credential of a launch event, if it is one. -/
def FleetEvent.launchKey : FleetEvent → Option String
  | .launch _ k => some k
  | .grace _ _ => none

/-- Whether a fleet event is a grace-period sleep. -/
def FleetEvent.isGrace : FleetEvent → Bool
  | .grace _ _ => true
  | .launch _ _ => false

/-- Whether an event records a failed connection attempt. -/
def Event.isAttemptFail : Event → Bool
  | .attemptFail _ _ => true
  | _ => false

/-- Whether an event records an inter-attempt cooldown sleep. -/
def Event.isFailSleep : Event → Bool
  | .failSleep _ _ _ => true
  | _ => false

/-- Whether an event records a session creation. -/
def Event.isSessionCreated : Event → Bool
  | .sessionCreated _ => true
  | _ => false

/-- Whether an event records a session teardown. -/
def Event.isSessionReleased : Event → Bool
  | .sessionReleased _ => true
  | _ => false

/-- Whether an event is the inter-cycle cooldown sleep of cycle `c`. -/
def Event.isCooldownOf (c : Nat) : Event → Bool
  | .cooldownSleep c2 _ => c2 = c
  | _ => false

/-- Whether an event is the run-duration draw of cycle `c`. -/
def Event.isRunDrawnOf (c : Nat) : Event → Bool
  | .runDrawn c2 _ => c2 = c
  | _ => false

/-- Scan of a trace checking the session-ownership discipline: a session
is created only when no session is live, released only when one is, with
`live` the number of live sessions at the scan head. -/
def checkLive : Nat → List Event → Bool
  | _, [] => true
  | live, e :: rest =>
    match e with
    | .sessionCreated _ => live = 0 && checkLive (live + 1) rest
    | .sessionReleased _ => decide (0 < live) && checkLive (live - 1) rest
    | _ => checkLive live rest

/-- Number of live sessions after scanning a trace from `live` live ones. -/
def liveAfter : Nat → List Event → Nat
  | live, [] => live
  | live, e :: rest =>
    match e with
    | .sessionCreated _ => liveAfter (live + 1) rest
    | .sessionReleased _ => liveAfter (live - 1) rest
    | _ => liveAfter live rest

/-! ## Basic facts about the random-draw model -/

theorem randint_bounds (a b r : Nat) (h : a ≤ b) :
    a ≤ randint a b r ∧ randint a b r ≤ b := by
  unfold randint
  have hm : r % (b - a + 1) < b - a + 1 := Nat.mod_lt _ (by omega)
  omega

/-! ## The connection retry loop -/

theorem connectAttempts_mem_kinds (cy : Nat) (oc : Nat → Option Session)
    (r : Nat → Nat) (rem : Nat) :
    ∀ a e, e ∈ (connectAttempts cy oc r a rem).2 →
      (∃ a2, e = .attemptFail cy a2) ∨ (∃ a2 d, e = .failSleep cy a2 d) ∨
        e = .sessionCreated cy := by
  induction rem with
  | zero => intro a e h; simp [connectAttempts] at h
  | succ rem ih =>
    intro a e h
    simp only [connectAttempts] at h
    cases hoc : oc a with
    | some s =>
      rw [hoc] at h
      simp only [List.mem_singleton] at h
      exact Or.inr (Or.inr h)
    | none =>
      rw [hoc] at h
      by_cases ha : a < MAX_CONNECTION_ATTEMPTS - 1
      · simp only [if_pos ha, List.mem_cons] at h
        rcases h with h | h | h
        · exact Or.inl ⟨a, h⟩
        · exact Or.inr (Or.inl ⟨a, _, h⟩)
        · exact ih (a + 1) e h
      · simp only [if_neg ha, List.mem_singleton] at h
        exact Or.inl ⟨a, h⟩

theorem connectAttempts_ne_exited_none (cy : Nat) (oc : Nat → Option Session)
    (r : Nat → Nat) (rem : Nat) :
    ∀ a, a + rem = MAX_CONNECTION_ATTEMPTS → 1 ≤ rem →
      (connectAttempts cy oc r a rem).1 ≠ .exited none := by
  induction rem with
  | zero => intro a _ h1; omega
  | succ rem ih =>
    intro a ha _
    simp only [connectAttempts]
    cases hoc : oc a with
    | some s => simp
    | none =>
      by_cases hlt : a < MAX_CONNECTION_ATTEMPTS - 1
      · simp only [if_pos hlt]
        have : MAX_CONNECTION_ATTEMPTS = 10 := rfl
        exact ih (a + 1) (by omega) (by omega)
      · simp only [if_neg hlt]
        simp

theorem connectAttempts_abandoned_iff (cy : Nat) (oc : Nat → Option Session)
    (r : Nat → Nat) (rem : Nat) :
    ∀ a, a + rem = MAX_CONNECTION_ATTEMPTS → 1 ≤ rem →
      ((connectAttempts cy oc r a rem).1 = .abandoned ↔
        ∀ i, a ≤ i → i < MAX_CONNECTION_ATTEMPTS → oc i = none) := by
  induction rem with
  | zero => intro a _ h1; omega
  | succ rem ih =>
    intro a ha _
    have hM : MAX_CONNECTION_ATTEMPTS = 10 := rfl
    simp only [connectAttempts]
    cases hoc : oc a with
    | some s =>
      simp only []
      constructor
      · intro h; exact absurd h (by simp)
      · intro h
        exact absurd (h a le_rfl (by omega)) (by simp [hoc])
    | none =>
      by_cases hlt : a < MAX_CONNECTION_ATTEMPTS - 1
      · simp only [if_pos hlt]
        have hih := ih (a + 1) (by omega) (by omega)
        constructor
        · intro h i hai hi
          rcases Nat.eq_or_lt_of_le hai with rfl | hgt
          · exact hoc
          · exact hih.mp h i (by omega) hi
        · intro h
          exact hih.mpr (fun i h1 h2 => h i (by omega) h2)
      · simp only [if_neg hlt]
        constructor
        · intro _ i hai hi
          have : i = a := by omega
          subst this; exact hoc
        · intro _; trivial

theorem connectAttempts_allfail_counts (cy : Nat) (oc : Nat → Option Session)
    (r : Nat → Nat) (rem : Nat) :
    ∀ a, a + rem = MAX_CONNECTION_ATTEMPTS → 1 ≤ rem →
      (∀ i, a ≤ i → i < MAX_CONNECTION_ATTEMPTS → oc i = none) →
      (connectAttempts cy oc r a rem).2.countP Event.isAttemptFail = rem ∧
      (connectAttempts cy oc r a rem).2.countP Event.isFailSleep = rem - 1 ∧
      (connectAttempts cy oc r a rem).2.countP Event.isSessionCreated = 0 := by
  induction rem with
  | zero => intro a _ h1; omega
  | succ rem ih =>
    intro a ha _ hall
    have hM : MAX_CONNECTION_ATTEMPTS = 10 := rfl
    have hoc : oc a = none := hall a le_rfl (by omega)
    simp only [connectAttempts, hoc]
    by_cases hlt : a < MAX_CONNECTION_ATTEMPTS - 1
    · simp only [if_pos hlt]
      have hih := ih (a + 1) (by omega) (by omega) (fun i h1 h2 => hall i (by omega) h2)
      simp only [List.countP_cons, Event.isAttemptFail, Event.isFailSleep,
        Event.isSessionCreated]
      refine ⟨?_, ?_, ?_⟩
      · simp [hih.1]
      · have : rem ≥ 1 := by omega
        simp only [hih.2.1]
        simp
        omega
      · simp [hih.2.2]
    · simp only [if_neg hlt]
      rw [hM] at ha hlt
      refine ⟨?_, ?_, ?_⟩ <;>
        simp [List.countP_cons, Event.isAttemptFail, Event.isFailSleep,
          Event.isSessionCreated] <;> omega

theorem connectAttempts_sleep_mem (cy : Nat) (oc : Nat → Option Session)
    (r : Nat → Nat) (rem : Nat) :
    ∀ a c2 a2 d, Event.failSleep c2 a2 d ∈ (connectAttempts cy oc r a rem).2 →
      c2 = cy ∧ d = randint 60 250 (r a2) ∧ a2 < MAX_CONNECTION_ATTEMPTS - 1 := by
  induction rem with
  | zero => intro a c2 a2 d h; simp [connectAttempts] at h
  | succ rem ih =>
    intro a c2 a2 d h
    simp only [connectAttempts] at h
    cases hoc : oc a with
    | some s =>
      rw [hoc] at h
      simp at h
    | none =>
      rw [hoc] at h
      by_cases hlt : a < MAX_CONNECTION_ATTEMPTS - 1
      · simp only [if_pos hlt, List.mem_cons] at h
        rcases h with h | h | h
        · exact absurd h (by simp)
        · have h2 := Event.failSleep.injEq c2 a2 d cy a (randint 60 250 (r a)) ▸ h
          rw [Event.failSleep.injEq] at h
          obtain ⟨rfl, rfl, rfl⟩ := h
          exact ⟨rfl, rfl, hlt⟩
        · exact ih (a + 1) c2 a2 d h
      · simp only [if_neg hlt, List.mem_singleton] at h
        exact absurd h (by simp)

theorem connectAttempts_fail_has_sleep (cy : Nat) (oc : Nat → Option Session)
    (r : Nat → Nat) (rem : Nat) :
    ∀ a a2, Event.attemptFail cy a2 ∈ (connectAttempts cy oc r a rem).2 →
      a2 < MAX_CONNECTION_ATTEMPTS - 1 →
      Event.failSleep cy a2 (randint 60 250 (r a2)) ∈ (connectAttempts cy oc r a rem).2 := by
  induction rem with
  | zero => intro a a2 h; simp [connectAttempts] at h
  | succ rem ih =>
    intro a a2 h ha2
    simp only [connectAttempts] at h ⊢
    cases hoc : oc a with
    | some s =>
      rw [hoc] at h
      simp at h
    | none =>
      rw [hoc] at h
      by_cases hlt : a < MAX_CONNECTION_ATTEMPTS - 1
      · simp only [if_pos hlt, List.mem_cons] at h ⊢
        rcases h with h | h | h
        · rw [Event.attemptFail.injEq] at h
          obtain ⟨-, rfl⟩ := h
          exact Or.inr (Or.inl rfl)
        · exact absurd h (by simp)
        · exact Or.inr (Or.inr (ih (a + 1) a2 h ha2))
      · simp only [if_neg hlt, List.mem_singleton] at h
        rw [Event.attemptFail.injEq] at h
        obtain ⟨-, rfl⟩ := h
        exact absurd ha2 hlt

theorem connectAttempts_success_shape (cy : Nat) (oc : Nat → Option Session)
    (r : Nat → Nat) (rem : Nat) :
    ∀ a s, (connectAttempts cy oc r a rem).1 = .exited (some s) →
      ∃ pre, (connectAttempts cy oc r a rem).2 = pre ++ [.sessionCreated cy] ∧
        ∀ e ∈ pre, e.isAttemptFail = true ∨ e.isFailSleep = true := by
  induction rem with
  | zero => intro a s h; simp [connectAttempts] at h
  | succ rem ih =>
    intro a s h
    simp only [connectAttempts] at h ⊢
    cases hoc : oc a with
    | some s2 =>
      exact ⟨[], by simp⟩
    | none =>
      rw [hoc] at h
      by_cases hlt : a < MAX_CONNECTION_ATTEMPTS - 1
      · simp only [if_pos hlt] at h ⊢
        obtain ⟨pre, hpre, hall⟩ := ih (a + 1) s h
        refine ⟨.attemptFail cy a :: .failSleep cy a (randint 60 250 (r a)) :: pre, ?_, ?_⟩
        · simp [hpre]
        · intro e he
          simp only [List.mem_cons] at he
          rcases he with he | he | he
          · rw [he]; exact Or.inl rfl
          · rw [he]; exact Or.inr rfl
          · exact hall e he
      · simp only [if_neg hlt] at h
        exact absurd h (by simp)

theorem connectAttempts_created_mem (cy : Nat) (oc : Nat → Option Session)
    (r : Nat → Nat) (rem : Nat) :
    ∀ a c2, Event.sessionCreated c2 ∈ (connectAttempts cy oc r a rem).2 →
      ∃ s, (connectAttempts cy oc r a rem).1 = .exited (some s) := by
  induction rem with
  | zero => intro a c2 h; simp [connectAttempts] at h
  | succ rem ih =>
    intro a c2 h
    simp only [connectAttempts] at h ⊢
    cases hoc : oc a with
    | some s =>
      exact ⟨s, rfl⟩
    | none =>
      rw [hoc] at h
      by_cases hlt : a < MAX_CONNECTION_ATTEMPTS - 1
      · simp only [if_pos hlt, List.mem_cons] at h ⊢
        rcases h with h | h | h
        · exact absurd h (by simp)
        · exact absurd h (by simp)
        · exact ih (a + 1) c2 h
      · simp only [if_neg hlt, List.mem_singleton] at h
        exact absurd h (by simp)

/-! ## Session-liveness scan helpers -/

theorem checkLive_append (a b : List Event) :
    ∀ n, checkLive n (a ++ b) = (checkLive n a && checkLive (liveAfter n a) b) := by
  induction a with
  | nil => intro n; simp [checkLive, liveAfter]
  | cons e rest ih =>
    intro n
    cases e <;>
      simp only [List.cons_append, List.append_eq, checkLive, liveAfter, ih, Bool.and_assoc]

theorem liveAfter_append (a b : List Event) :
    ∀ n, liveAfter n (a ++ b) = liveAfter (liveAfter n a) b := by
  induction a with
  | nil => intro n; simp [liveAfter]
  | cons e rest ih =>
    intro n
    cases e <;> simp only [List.cons_append, List.append_eq, liveAfter, ih]

theorem checkLive_neutral (l : List Event) :
    ∀ n, (∀ e ∈ l, e.isSessionCreated = false ∧ e.isSessionReleased = false) →
      checkLive n l = true ∧ liveAfter n l = n := by
  induction l with
  | nil => intro n _; simp [checkLive, liveAfter]
  | cons e rest ih =>
    intro n h
    have he := h e (by simp)
    have hr := fun e2 h2 => h e2 (List.mem_cons_of_mem e h2)
    cases e <;>
      simp [Event.isSessionCreated, Event.isSessionReleased] at he <;>
      simp [checkLive, liveAfter, (ih n hr).1, (ih n hr).2]

theorem event_fail_neutral (e : Event) (h : e.isAttemptFail = true ∨ e.isFailSleep = true) :
    e.isSessionCreated = false ∧ e.isSessionReleased = false := by
  cases e <;> simp_all [Event.isAttemptFail, Event.isFailSleep,
    Event.isSessionCreated, Event.isSessionReleased]

/-! ## Facts about the command-execution block of one cycle -/

theorem runCycleEvents_cycleOf (c : Nat) (b : CycleBehavior) :
    ∀ e ∈ runCycleEvents c b, e.cycleOf = c := by
  cases b <;> intro e he <;> simp [runCycleEvents] at he <;>
    rcases he with rfl | rfl <;> rfl

theorem runCycleEvents_checkLive (c : Nat) (b : CycleBehavior) :
    checkLive 1 (runCycleEvents c b) = true ∧ liveAfter 1 (runCycleEvents c b) = 0 := by
  cases b <;> simp [runCycleEvents, checkLive, liveAfter]

theorem runCycleEvents_released_mem (c : Nat) (b : CycleBehavior) :
    Event.sessionReleased c ∈ runCycleEvents c b := by
  cases b <;> simp [runCycleEvents]

theorem runCycleEvents_not_cooldown (c : Nat) (b : CycleBehavior) :
    ∀ e ∈ runCycleEvents c b, ∀ c2, e.isCooldownOf c2 = false := by
  cases b <;> intro e he c2 <;> simp [runCycleEvents] at he <;>
    rcases he with rfl | rfl <;> simp [Event.isCooldownOf]

theorem runCycleEvents_no_runDrawn (c : Nat) (b : CycleBehavior) :
    ∀ e ∈ runCycleEvents c b, ∀ c2, e.isRunDrawnOf c2 = false := by
  cases b <;> intro e he c2 <;> simp [runCycleEvents] at he <;>
    rcases he with rfl | rfl <;> simp [Event.isRunDrawnOf]

/-! ## takeWhile helper -/

theorem takeWhile_append_all (p : Event → Bool) :
    ∀ a b : List Event, (∀ e ∈ a, p e = true) →
      (a ++ b).takeWhile p = a ++ b.takeWhile p := by
  intro a
  induction a with
  | nil => intro b _; simp
  | cons e rest ih =>
    intro b h
    have he := h e (by simp)
    simp only [List.cons_append, List.takeWhile_cons, he, if_pos]
    rw [ih b (fun e2 h2 => h e2 (List.mem_cons_of_mem e h2))]

/-! ## The connect phase -/

theorem connectPhase_mem (cy : Nat) (oc : Nat → Option Session) (r : Nat → Nat) :
    ∀ e ∈ (connectPhase cy oc r).2,
      (∃ a2, e = .attemptFail cy a2) ∨ (∃ a2 d, e = .failSleep cy a2 d) ∨
        e = .sessionCreated cy :=
  fun e he => connectAttempts_mem_kinds cy oc r MAX_CONNECTION_ATTEMPTS 0 e he

theorem connectPhase_ne_exited_none (cy : Nat) (oc : Nat → Option Session) (r : Nat → Nat) :
    (connectPhase cy oc r).1 ≠ .exited none :=
  connectAttempts_ne_exited_none cy oc r MAX_CONNECTION_ATTEMPTS 0 rfl (by decide)

theorem connectPhase_abandoned_iff (cy : Nat) (oc : Nat → Option Session) (r : Nat → Nat) :
    (connectPhase cy oc r).1 = .abandoned ↔
      ∀ i, i < MAX_CONNECTION_ATTEMPTS → oc i = none := by
  have h := connectAttempts_abandoned_iff cy oc r MAX_CONNECTION_ATTEMPTS 0 rfl (by decide)
  constructor
  · intro hab i hi
    exact h.mp hab i (Nat.zero_le i) hi
  · intro hall
    exact h.mpr (fun i _ hi => hall i hi)

/-! ## One-step unfolding of the lifecycle loop -/

theorem lifecycleFrom_succ (o : Oracle) (cfg : TimingConfig) (c fuel : Nat) :
    ((connectPhase c (o.connectOutcome c) (o.failCoolRand c)).1 = .abandoned ∧
      lifecycleFrom o cfg c (fuel + 1) =
        ((connectPhase c (o.connectOutcome c) (o.failCoolRand c)).2 ++ [.abandon c], true)) ∨
    ((∃ s, (connectPhase c (o.connectOutcome c) (o.failCoolRand c)).1 = .exited (some s)) ∧
      lifecycleFrom o cfg c (fuel + 1) =
        ((connectPhase c (o.connectOutcome c) (o.failCoolRand c)).2 ++
          .runDrawn c (randint cfg.runTimeMin cfg.runTimeMax (o.runRand c)) ::
          .downDrawn c (randint cfg.downtimeMin cfg.downtimeMax (o.downRand c)) ::
          (runCycleEvents c (o.cycleBehavior c) ++
            .cooldownSleep c (randint cfg.downtimeMin cfg.downtimeMax (o.downRand c)) ::
            (lifecycleFrom o cfg (c + 1) fuel).1),
         (lifecycleFrom o cfg (c + 1) fuel).2)) := by
  simp only [lifecycleFrom]
  rcases hc : (connectPhase c (o.connectOutcome c) (o.failCoolRand c)).1 with _ | inst
  · exact Or.inl ⟨rfl, rfl⟩
  · rcases inst with _ | s
    · exact absurd hc (connectPhase_ne_exited_none c _ _)
    · exact Or.inr ⟨⟨s, rfl⟩, rfl⟩

theorem runCycleEvents_mem_kinds (c : Nat) (b : CycleBehavior) :
    ∀ e ∈ runCycleEvents c b,
      (∃ r2, e = .cycleOutcome c r2) ∨ e = .sessionReleased c := by
  cases b <;> intro e he <;> simp [runCycleEvents] at he <;>
    rcases he with rfl | rfl <;> simp

theorem isRunDrawnOf_eq_true (c2 : Nat) (e : Event) :
    e.isRunDrawnOf c2 = true ↔ ∃ d, e = .runDrawn c2 d := by
  cases e <;> simp [Event.isRunDrawnOf]

theorem lifecycle_cycle_le (o : Oracle) (cfg : TimingConfig) (fuel : Nat) :
    ∀ c e, e ∈ (lifecycleFrom o cfg c fuel).1 → c ≤ e.cycleOf := by
  induction fuel with
  | zero => intro c e h; simp [lifecycleFrom] at h
  | succ fuel ih =>
    intro c e h
    rcases lifecycleFrom_succ o cfg c fuel with ⟨hab, heq⟩ | ⟨⟨s, hs⟩, heq⟩ <;>
      rw [heq] at h
    · simp only [List.mem_append, List.mem_singleton] at h
      rcases h with h | rfl
      · rcases connectPhase_mem _ _ _ e h with ⟨a2, rfl⟩ | ⟨a2, d, rfl⟩ | rfl <;>
          simp [Event.cycleOf]
      · simp [Event.cycleOf]
    · simp only [List.mem_append, List.mem_cons] at h
      rcases h with h | rfl | rfl | h | rfl | h
      · rcases connectPhase_mem _ _ _ e h with ⟨a2, rfl⟩ | ⟨a2, d, rfl⟩ | rfl <;>
          simp [Event.cycleOf]
      · simp [Event.cycleOf]
      · simp [Event.cycleOf]
      · rw [runCycleEvents_cycleOf c _ e h]
      · simp [Event.cycleOf]
      · exact le_trans (Nat.le_succ c) (ih (c + 1) e h)

theorem lifecycle_safeguard_not_mem (o : Oracle) (cfg : TimingConfig) (fuel : Nat) :
    ∀ c c2, Event.safeguardReturn c2 ∉ (lifecycleFrom o cfg c fuel).1 := by
  induction fuel with
  | zero => intro c c2 h; simp [lifecycleFrom] at h
  | succ fuel ih =>
    intro c c2 h
    rcases lifecycleFrom_succ o cfg c fuel with ⟨hab, heq⟩ | ⟨⟨s, hs⟩, heq⟩ <;>
      rw [heq] at h
    · simp only [List.mem_append, List.mem_singleton] at h
      rcases h with h | h
      · rcases connectPhase_mem _ _ _ _ h with ⟨a2, he⟩ | ⟨a2, d, he⟩ | he <;>
          exact absurd he (by simp)
      · exact absurd h (by simp)
    · simp only [List.mem_append, List.mem_cons] at h
      rcases h with h | h | h | h | h | h
      · rcases connectPhase_mem _ _ _ _ h with ⟨a2, he⟩ | ⟨a2, d, he⟩ | he <;>
          exact absurd he (by simp)
      · exact absurd h (by simp)
      · exact absurd h (by simp)
      · rcases runCycleEvents_mem_kinds c _ _ h with ⟨r2, he⟩ | he <;>
          exact absurd he (by simp)
      · exact absurd h (by simp)
      · exact ih (c + 1) c2 h

theorem lifecycle_failSleep_mem (o : Oracle) (cfg : TimingConfig) (fuel : Nat) :
    ∀ c c2 a d, Event.failSleep c2 a d ∈ (lifecycleFrom o cfg c fuel).1 →
      d = randint 60 250 (o.failCoolRand c2 a) ∧ a < MAX_CONNECTION_ATTEMPTS - 1 := by
  induction fuel with
  | zero => intro c c2 a d h; simp [lifecycleFrom] at h
  | succ fuel ih =>
    intro c c2 a d h
    rcases lifecycleFrom_succ o cfg c fuel with ⟨hab, heq⟩ | ⟨⟨s, hs⟩, heq⟩ <;>
      rw [heq] at h
    · simp only [List.mem_append, List.mem_singleton] at h
      rcases h with h | h
      · obtain ⟨rfl, hd, hlt⟩ :=
          connectAttempts_sleep_mem c (o.connectOutcome c) (o.failCoolRand c)
            MAX_CONNECTION_ATTEMPTS 0 c2 a d h
        exact ⟨hd, hlt⟩
      · exact absurd h (by simp)
    · simp only [List.mem_append, List.mem_cons] at h
      rcases h with h | h | h | h | h | h
      · obtain ⟨rfl, hd, hlt⟩ :=
          connectAttempts_sleep_mem c (o.connectOutcome c) (o.failCoolRand c)
            MAX_CONNECTION_ATTEMPTS 0 c2 a d h
        exact ⟨hd, hlt⟩
      · exact absurd h (by simp)
      · exact absurd h (by simp)
      · rcases runCycleEvents_mem_kinds c _ _ h with ⟨r2, he⟩ | he <;>
          exact absurd he (by simp)
      · exact absurd h (by simp)
      · exact ih (c + 1) c2 a d h

theorem lifecycle_attemptFail_sleep (o : Oracle) (cfg : TimingConfig) (fuel : Nat) :
    ∀ c c2 a, Event.attemptFail c2 a ∈ (lifecycleFrom o cfg c fuel).1 →
      a < MAX_CONNECTION_ATTEMPTS - 1 →
      Event.failSleep c2 a (randint 60 250 (o.failCoolRand c2 a)) ∈
        (lifecycleFrom o cfg c fuel).1 := by
  induction fuel with
  | zero => intro c c2 a h; simp [lifecycleFrom] at h
  | succ fuel ih =>
    intro c c2 a h ha
    rcases lifecycleFrom_succ o cfg c fuel with ⟨hab, heq⟩ | ⟨⟨s, hs⟩, heq⟩ <;>
      rw [heq] at h ⊢
    · simp only [List.mem_append, List.mem_singleton] at h ⊢
      rcases h with h | h
      · have hc2 : c2 = c := by
          rcases connectPhase_mem _ _ _ _ h with ⟨a2, he⟩ | ⟨a2, d, he⟩ | he
          · rw [Event.attemptFail.injEq] at he; exact he.1
          · exact absurd he (by simp)
          · exact absurd he (by simp)
        subst hc2
        exact Or.inl (connectAttempts_fail_has_sleep c2 (o.connectOutcome c2)
          (o.failCoolRand c2) MAX_CONNECTION_ATTEMPTS 0 a h ha)
      · exact absurd h (by simp)
    · simp only [List.mem_append, List.mem_cons] at h ⊢
      rcases h with h | h | h | h | h | h
      · have hc2 : c2 = c := by
          rcases connectPhase_mem _ _ _ _ h with ⟨a2, he⟩ | ⟨a2, d, he⟩ | he
          · rw [Event.attemptFail.injEq] at he; exact he.1
          · exact absurd he (by simp)
          · exact absurd he (by simp)
        subst hc2
        exact Or.inl (connectAttempts_fail_has_sleep c2 (o.connectOutcome c2)
          (o.failCoolRand c2) MAX_CONNECTION_ATTEMPTS 0 a h ha)
      · exact absurd h (by simp)
      · exact absurd h (by simp)
      · rcases runCycleEvents_mem_kinds c _ _ h with ⟨r2, he⟩ | he <;>
          exact absurd he (by simp)
      · exact absurd h (by simp)
      · exact Or.inr (Or.inr (Or.inr (Or.inr (Or.inr (ih (c + 1) c2 a h ha)))))

theorem connectPhase_success_shape (cy : Nat) (oc : Nat → Option Session) (r : Nat → Nat)
    (s : Session) (h : (connectPhase cy oc r).1 = .exited (some s)) :
    ∃ pre, (connectPhase cy oc r).2 = pre ++ [.sessionCreated cy] ∧
      ∀ e ∈ pre, e.isAttemptFail = true ∨ e.isFailSleep = true :=
  connectAttempts_success_shape cy oc r MAX_CONNECTION_ATTEMPTS 0 s h

theorem connectPhase_allfail_counts (cy : Nat) (oc : Nat → Option Session) (r : Nat → Nat)
    (h : ∀ i, i < MAX_CONNECTION_ATTEMPTS → oc i = none) :
    (connectPhase cy oc r).2.countP Event.isAttemptFail = MAX_CONNECTION_ATTEMPTS ∧
    (connectPhase cy oc r).2.countP Event.isFailSleep = MAX_CONNECTION_ATTEMPTS - 1 ∧
    (connectPhase cy oc r).2.countP Event.isSessionCreated = 0 :=
  connectAttempts_allfail_counts cy oc r MAX_CONNECTION_ATTEMPTS 0 rfl (by decide)
    (fun i _ hi => h i hi)

theorem mem_takeWhile_of_all (p : Event → Bool) (x : Event) :
    ∀ A B : List Event, (∀ e ∈ A, p e = true) → (x ∈ A ∨ x ∈ B.takeWhile p) →
      x ∈ (A ++ B).takeWhile p := by
  intro A B hall hx
  rw [takeWhile_append_all p A B hall]
  rcases hx with hx | hx
  · exact List.mem_append_left _ hx
  · exact List.mem_append_right _ hx

theorem lifecycle_runDrawn_mem (o : Oracle) (cfg : TimingConfig) (fuel : Nat) :
    ∀ c c2 d, Event.runDrawn c2 d ∈ (lifecycleFrom o cfg c fuel).1 →
      d = randint cfg.runTimeMin cfg.runTimeMax (o.runRand c2) := by
  induction fuel with
  | zero => intro c c2 d h; simp [lifecycleFrom] at h
  | succ fuel ih =>
    intro c c2 d h
    rcases lifecycleFrom_succ o cfg c fuel with ⟨hab, heq⟩ | ⟨⟨s, hs⟩, heq⟩ <;>
      rw [heq] at h
    · simp only [List.mem_append, List.mem_singleton] at h
      rcases h with h | h
      · rcases connectPhase_mem _ _ _ _ h with ⟨a2, he⟩ | ⟨a2, d2, he⟩ | he <;>
          exact absurd he (by simp)
      · exact absurd h (by simp)
    · simp only [List.mem_append, List.mem_cons] at h
      rcases h with h | h | h | h | h | h
      · rcases connectPhase_mem _ _ _ _ h with ⟨a2, he⟩ | ⟨a2, d2, he⟩ | he <;>
          exact absurd he (by simp)
      · rw [Event.runDrawn.injEq] at h
        obtain ⟨rfl, rfl⟩ := h
        rfl
      · exact absurd h (by simp)
      · rcases runCycleEvents_mem_kinds c _ _ h with ⟨r2, he⟩ | he <;>
          exact absurd he (by simp)
      · exact absurd h (by simp)
      · exact ih (c + 1) c2 d h

theorem lifecycle_downDrawn_mem (o : Oracle) (cfg : TimingConfig) (fuel : Nat) :
    ∀ c c2 d, Event.downDrawn c2 d ∈ (lifecycleFrom o cfg c fuel).1 →
      d = randint cfg.downtimeMin cfg.downtimeMax (o.downRand c2) := by
  induction fuel with
  | zero => intro c c2 d h; simp [lifecycleFrom] at h
  | succ fuel ih =>
    intro c c2 d h
    rcases lifecycleFrom_succ o cfg c fuel with ⟨hab, heq⟩ | ⟨⟨s, hs⟩, heq⟩ <;>
      rw [heq] at h
    · simp only [List.mem_append, List.mem_singleton] at h
      rcases h with h | h
      · rcases connectPhase_mem _ _ _ _ h with ⟨a2, he⟩ | ⟨a2, d2, he⟩ | he <;>
          exact absurd he (by simp)
      · exact absurd h (by simp)
    · simp only [List.mem_append, List.mem_cons] at h
      rcases h with h | h | h | h | h | h
      · rcases connectPhase_mem _ _ _ _ h with ⟨a2, he⟩ | ⟨a2, d2, he⟩ | he <;>
          exact absurd he (by simp)
      · exact absurd h (by simp)
      · rw [Event.downDrawn.injEq] at h
        obtain ⟨rfl, rfl⟩ := h
        rfl
      · rcases runCycleEvents_mem_kinds c _ _ h with ⟨r2, he⟩ | he <;>
          exact absurd he (by simp)
      · exact absurd h (by simp)
      · exact ih (c + 1) c2 d h

theorem lifecycle_cooldown_mem (o : Oracle) (cfg : TimingConfig) (fuel : Nat) :
    ∀ c c2 d, Event.cooldownSleep c2 d ∈ (lifecycleFrom o cfg c fuel).1 →
      d = randint cfg.downtimeMin cfg.downtimeMax (o.downRand c2) := by
  induction fuel with
  | zero => intro c c2 d h; simp [lifecycleFrom] at h
  | succ fuel ih =>
    intro c c2 d h
    rcases lifecycleFrom_succ o cfg c fuel with ⟨hab, heq⟩ | ⟨⟨s, hs⟩, heq⟩ <;>
      rw [heq] at h
    · simp only [List.mem_append, List.mem_singleton] at h
      rcases h with h | h
      · rcases connectPhase_mem _ _ _ _ h with ⟨a2, he⟩ | ⟨a2, d2, he⟩ | he <;>
          exact absurd he (by simp)
      · exact absurd h (by simp)
    · simp only [List.mem_append, List.mem_cons] at h
      rcases h with h | h | h | h | h | h
      · rcases connectPhase_mem _ _ _ _ h with ⟨a2, he⟩ | ⟨a2, d2, he⟩ | he <;>
          exact absurd he (by simp)
      · exact absurd h (by simp)
      · exact absurd h (by simp)
      · rcases runCycleEvents_mem_kinds c _ _ h with ⟨r2, he⟩ | he <;>
          exact absurd he (by simp)
      · rw [Event.cooldownSleep.injEq] at h
        obtain ⟨rfl, rfl⟩ := h
        rfl
      · exact ih (c + 1) c2 d h

theorem lifecycle_created_runDrawn (o : Oracle) (cfg : TimingConfig) (fuel : Nat) :
    ∀ c c2, Event.sessionCreated c2 ∈ (lifecycleFrom o cfg c fuel).1 →
      Event.runDrawn c2 (randint cfg.runTimeMin cfg.runTimeMax (o.runRand c2)) ∈
        (lifecycleFrom o cfg c fuel).1 := by
  induction fuel with
  | zero => intro c c2 h; simp [lifecycleFrom] at h
  | succ fuel ih =>
    intro c c2 h
    rcases lifecycleFrom_succ o cfg c fuel with ⟨hab, heq⟩ | ⟨⟨s, hs⟩, heq⟩ <;>
      rw [heq] at h ⊢
    · exfalso
      simp only [List.mem_append, List.mem_singleton] at h
      rcases h with h | h
      · obtain ⟨s2, hcon⟩ := connectAttempts_created_mem c (o.connectOutcome c)
          (o.failCoolRand c) MAX_CONNECTION_ATTEMPTS 0 c2 h
        have hcon2 : ConnectResult.exited (some s2) = ConnectResult.abandoned :=
          hcon.symm.trans hab
        exact absurd hcon2 (by simp)
      · exact absurd h (by simp)
    · simp only [List.mem_append, List.mem_cons] at h ⊢
      rcases h with h | h | h | h | h | h
      · have hc2 : c2 = c := by
          rcases connectPhase_mem _ _ _ _ h with ⟨a2, he⟩ | ⟨a2, d2, he⟩ | he
          · exact absurd he (by simp)
          · exact absurd he (by simp)
          · rw [Event.sessionCreated.injEq] at he; exact he
        subst hc2
        exact Or.inr (Or.inl rfl)
      · exact absurd h (by simp)
      · exact absurd h (by simp)
      · rcases runCycleEvents_mem_kinds c _ _ h with ⟨r2, he⟩ | he <;>
          exact absurd he (by simp)
      · exact absurd h (by simp)
      · exact Or.inr (Or.inr (Or.inr (Or.inr (Or.inr (ih (c + 1) c2 h)))))

theorem lifecycle_countP_runDrawn (o : Oracle) (cfg : TimingConfig) (fuel : Nat) :
    ∀ c c2, ((lifecycleFrom o cfg c fuel).1.countP (Event.isRunDrawnOf c2)) ≤ 1 := by
  induction fuel with
  | zero => intro c c2; simp [lifecycleFrom]
  | succ fuel ih =>
    intro c c2
    have hconn : (connectPhase c (o.connectOutcome c) (o.failCoolRand c)).2.countP
        (Event.isRunDrawnOf c2) = 0 := by
      rw [List.countP_eq_zero]
      intro e he
      rcases connectPhase_mem _ _ _ e he with ⟨a2, rfl⟩ | ⟨a2, d, rfl⟩ | rfl <;>
        simp [Event.isRunDrawnOf]
    rcases lifecycleFrom_succ o cfg c fuel with ⟨hab, heq⟩ | ⟨⟨s, hs⟩, heq⟩ <;> rw [heq]
    · rw [List.countP_append, hconn]
      simp [List.countP_cons, Event.isRunDrawnOf]
    · have hrc : (runCycleEvents c (o.cycleBehavior c)).countP (Event.isRunDrawnOf c2) = 0 := by
        rw [List.countP_eq_zero]
        intro e he
        simp [runCycleEvents_no_runDrawn c _ e he c2]
      by_cases hcc : c = c2
      · subst hcc
        have hrest : ((lifecycleFrom o cfg (c + 1) fuel).1.countP (Event.isRunDrawnOf c)) = 0 := by
          rw [List.countP_eq_zero]
          intro e he hp
          obtain ⟨d, rfl⟩ := (isRunDrawnOf_eq_true c e).mp hp
          have hle := lifecycle_cycle_le o cfg fuel (c + 1) _ he
          simp [Event.cycleOf] at hle
        simp [List.countP_append, List.countP_cons, hconn, hrc, hrest, Event.isRunDrawnOf]
      · have hne : Event.isRunDrawnOf c2
            (.runDrawn c (randint cfg.runTimeMin cfg.runTimeMax (o.runRand c))) = false := by
          simp [Event.isRunDrawnOf, hcc]
        have hrest := ih (c + 1) c2
        simp only [List.countP_append, List.countP_cons, hconn, hrc,
          Event.isRunDrawnOf]
        simpa [hcc] using hrest

theorem lifecycle_checkLive (o : Oracle) (cfg : TimingConfig) (fuel : Nat) :
    ∀ c, checkLive 0 (lifecycleFrom o cfg c fuel).1 = true := by
  induction fuel with
  | zero => intro c; simp [lifecycleFrom, checkLive]
  | succ fuel ih =>
    intro c
    rcases lifecycleFrom_succ o cfg c fuel with ⟨hab, heq⟩ | ⟨⟨s, hs⟩, heq⟩ <;> rw [heq]
    · refine (checkLive_neutral _ 0 ?_).1
      intro e he
      rcases List.mem_append.mp he with he | he
      · rcases connectPhase_mem _ _ _ e he with ⟨a2, rfl⟩ | ⟨a2, d, rfl⟩ | rfl
        · simp [Event.isSessionCreated, Event.isSessionReleased]
        · simp [Event.isSessionCreated, Event.isSessionReleased]
        · exfalso
          obtain ⟨s2, hcon⟩ := connectAttempts_created_mem c (o.connectOutcome c)
            (o.failCoolRand c) MAX_CONNECTION_ATTEMPTS 0 c he
          have hcon2 : ConnectResult.exited (some s2) = ConnectResult.abandoned :=
            hcon.symm.trans hab
          exact absurd hcon2 (by simp)
      · simp only [List.mem_singleton] at he
        subst he
        simp [Event.isSessionCreated, Event.isSessionReleased]
    · obtain ⟨pre, hpre, hprekinds⟩ :=
        connectPhase_success_shape c (o.connectOutcome c) (o.failCoolRand c) s hs
      rw [hpre]
      have hpn := checkLive_neutral pre 0 (fun e he => event_fail_neutral e (hprekinds e he))
      rw [List.append_assoc, checkLive_append, hpn.1, hpn.2, Bool.true_and,
        List.singleton_append]
      simp only [checkLive]
      rw [checkLive_append, (runCycleEvents_checkLive c (o.cycleBehavior c)).1,
        (runCycleEvents_checkLive c (o.cycleBehavior c)).2, Bool.true_and]
      simp only [checkLive]
      simp [ih (c + 1)]

theorem lifecycle_released_before_cooldown (o : Oracle) (cfg : TimingConfig) (fuel : Nat) :
    ∀ c c2, Event.sessionCreated c2 ∈ (lifecycleFrom o cfg c fuel).1 →
      Event.sessionReleased c2 ∈
        ((lifecycleFrom o cfg c fuel).1.takeWhile (fun e => !(e.isCooldownOf c2))) := by
  induction fuel with
  | zero => intro c c2 h; simp [lifecycleFrom] at h
  | succ fuel ih =>
    intro c c2 h
    rcases lifecycleFrom_succ o cfg c fuel with ⟨hab, heq⟩ | ⟨⟨s, hs⟩, heq⟩ <;>
      rw [heq] at h ⊢
    · exfalso
      simp only [List.mem_append, List.mem_singleton] at h
      rcases h with h | h
      · obtain ⟨s2, hcon⟩ := connectAttempts_created_mem c (o.connectOutcome c)
          (o.failCoolRand c) MAX_CONNECTION_ATTEMPTS 0 c2 h
        have hcon2 : ConnectResult.exited (some s2) = ConnectResult.abandoned :=
          hcon.symm.trans hab
        exact absurd hcon2 (by simp)
      · exact absurd h (by simp)
    · have hconnAll : ∀ e ∈ (connectPhase c (o.connectOutcome c) (o.failCoolRand c)).2,
          (fun e2 : Event => !(e2.isCooldownOf c2)) e = true := by
        intro e he
        rcases connectPhase_mem _ _ _ e he with ⟨a2, rfl⟩ | ⟨a2, d2, rfl⟩ | rfl <;>
          simp [Event.isCooldownOf]
      rcases List.mem_append.mp h with hmem | hmem
      · have hc2 : c2 = c := by
          rcases connectPhase_mem _ _ _ _ hmem with ⟨a2, he⟩ | ⟨a2, d2, he⟩ | he
          · exact absurd he (by simp)
          · exact absurd he (by simp)
          · rw [Event.sessionCreated.injEq] at he; exact he
        subst hc2
        refine mem_takeWhile_of_all _ _ _ _ hconnAll (Or.inr ?_)
        rw [List.takeWhile_cons_of_pos (by simp [Event.isCooldownOf]),
          List.takeWhile_cons_of_pos (by simp [Event.isCooldownOf])]
        refine List.mem_cons_of_mem _ (List.mem_cons_of_mem _ ?_)
        refine mem_takeWhile_of_all _ _ _ _ ?_
          (Or.inl (runCycleEvents_released_mem c2 (o.cycleBehavior c2)))
        intro e he
        simp [runCycleEvents_not_cooldown c2 _ e he c2]
      · have hrest : Event.sessionCreated c2 ∈ (lifecycleFrom o cfg (c + 1) fuel).1 := by
          rcases List.mem_cons.mp hmem with he | hmem2
          · exact absurd he (by simp)
          rcases List.mem_cons.mp hmem2 with he | hmem3
          · exact absurd he (by simp)
          rcases List.mem_append.mp hmem3 with he | hmem4
          · rcases runCycleEvents_mem_kinds c _ _ he with ⟨r2, he2⟩ | he2 <;>
              exact absurd he2 (by simp)
          rcases List.mem_cons.mp hmem4 with he | hm
          · exact absurd he (by simp)
          exact hm
        have hgt : c + 1 ≤ c2 := by
          have hle := lifecycle_cycle_le o cfg fuel (c + 1) _ hrest
          simpa [Event.cycleOf] using hle
        refine mem_takeWhile_of_all _ _ _ _ hconnAll (Or.inr ?_)
        rw [List.takeWhile_cons_of_pos (by simp [Event.isCooldownOf]),
          List.takeWhile_cons_of_pos (by simp [Event.isCooldownOf])]
        refine List.mem_cons_of_mem _ (List.mem_cons_of_mem _ ?_)
        refine mem_takeWhile_of_all _ _ _ _ ?_ (Or.inr ?_)
        · intro e he
          simp [runCycleEvents_not_cooldown c _ e he c2]
        · rw [List.takeWhile_cons_of_pos (by simp [Event.isCooldownOf]; omega)]
          exact List.mem_cons_of_mem _ (ih (c + 1) c2 hrest)

theorem lifecycle_allfail_eq (o : Oracle) (cfg : TimingConfig) (c fuel : Nat)
    (h : ∀ i, i < MAX_CONNECTION_ATTEMPTS → o.connectOutcome c i = none) :
    lifecycleFrom o cfg c (fuel + 1) =
      ((connectPhase c (o.connectOutcome c) (o.failCoolRand c)).2 ++ [.abandon c], true) := by
  have hab := (connectPhase_abandoned_iff c (o.connectOutcome c) (o.failCoolRand c)).mpr h
  rcases lifecycleFrom_succ o cfg c fuel with ⟨_, heq⟩ | ⟨⟨s, hs⟩, _⟩
  · exact heq
  · rw [hab] at hs
    exact absurd hs (by simp)

/-! ## First-seen deduplication -/

theorem dedupFS_mem (l : List String) : ∀ x, x ∈ dedupFS l ↔ x ∈ l := by
  induction l using dedupFS.induct with
  | case1 => simp [dedupFS]
  | case2 k rest ih =>
    intro x
    rw [dedupFS]
    simp only [List.mem_cons, ih, List.mem_filter]
    constructor
    · rintro (rfl | ⟨hx, _⟩)
      · exact Or.inl rfl
      · exact Or.inr hx
    · rintro (rfl | hx)
      · exact Or.inl rfl
      · by_cases hxk : x = k
        · exact Or.inl hxk
        · exact Or.inr ⟨hx, by simp [hxk]⟩

theorem dedupFS_nodup (l : List String) : (dedupFS l).Nodup := by
  induction l using dedupFS.induct with
  | case1 => simp [dedupFS]
  | case2 k rest ih =>
    rw [dedupFS]
    refine List.nodup_cons.mpr ⟨?_, ih⟩
    intro hk
    rw [dedupFS_mem] at hk
    simp at hk

theorem dedupFS_sublist (l : List String) : List.Sublist (dedupFS l) l := by
  induction l using dedupFS.induct with
  | case1 => simp [dedupFS]
  | case2 k rest ih =>
    rw [dedupFS]
    exact List.cons_sublist_cons.mpr (ih.trans (List.filter_sublist rest))

theorem indexOf_filter_lt (p : String → Bool) :
    ∀ (l : List String) (x y : String), p x = true → p y = true →
      (l.filter p).indexOf x < (l.filter p).indexOf y → l.indexOf x < l.indexOf y := by
  intro l
  induction l with
  | nil => intro x y _ _ h; simp [List.indexOf] at h
  | cons a t ih =>
    intro x y hx hy h
    by_cases hpa : p a = true
    · rw [List.filter_cons_of_pos hpa] at h
      by_cases hax : a = x
      · subst hax
        rw [List.indexOf_cons_self] at h
        have hya : y ≠ a := by
          intro hya
          subst hya
          rw [List.indexOf_cons_self] at h
          omega
        rw [List.indexOf_cons_self, List.indexOf_cons_ne _ (Ne.symm hya)]
        exact Nat.succ_pos _
      · by_cases hay : a = y
        · subst hay
          rw [List.indexOf_cons_self] at h
          have hxa : x ≠ a := fun hh => hax hh.symm
          rw [List.indexOf_cons_ne _ (Ne.symm hxa)] at h
          omega
        · have hax2 : a ≠ x := hax
          have hay2 : a ≠ y := hay
          rw [List.indexOf_cons_ne _ hax2, List.indexOf_cons_ne _ hay2] at h
          rw [List.indexOf_cons_ne _ hax2, List.indexOf_cons_ne _ hay2]
          exact Nat.succ_lt_succ (ih x y hx hy (Nat.lt_of_succ_lt_succ h))
    · have hax : a ≠ x := fun hh => hpa (hh ▸ hx)
      have hay : a ≠ y := fun hh => hpa (hh ▸ hy)
      rw [List.filter_cons_of_neg hpa] at h
      rw [List.indexOf_cons_ne _ hax, List.indexOf_cons_ne _ hay]
      exact Nat.succ_lt_succ (ih x y hx hy h)

theorem dedupFS_pairwise (l : List String) :
    (dedupFS l).Pairwise (fun x y => l.indexOf x < l.indexOf y) := by
  induction l using dedupFS.induct with
  | case1 => simp [dedupFS]
  | case2 k rest ih =>
    rw [dedupFS]
    refine List.pairwise_cons.mpr ⟨?_, ?_⟩
    · intro y hy
      rw [dedupFS_mem, List.mem_filter] at hy
      have hyk : y ≠ k := by simpa using hy.2
      rw [List.indexOf_cons_self, List.indexOf_cons_ne _ (Ne.symm hyk)]
      exact Nat.succ_pos _
    · refine ih.imp_of_mem ?_
      intro x y hx hy hlt
      rw [dedupFS_mem, List.mem_filter] at hx hy
      have hxk : x ≠ k := by simpa using hx.2
      have hyk : y ≠ k := by simpa using hy.2
      have hpx : (fun s => decide (s ≠ k)) x = true := by simpa using hxk
      have hpy : (fun s => decide (s ≠ k)) y = true := by simpa using hyk
      have h2 := indexOf_filter_lt _ rest x y hpx hpy hlt
      rw [List.indexOf_cons_ne _ (Ne.symm hxk), List.indexOf_cons_ne _ (Ne.symm hyk)]
      exact Nat.succ_lt_succ h2

theorem buildKeys_eq (l : List String) :
    ∀ keys seen, buildKeys keys seen l =
      keys ++ dedupFS (l.filter (fun x => x ∉ seen)) := by
  induction l with
  | nil => intro keys seen; simp [buildKeys, dedupFS]
  | cons k rest ih =>
    intro keys seen
    by_cases hk : k ∈ seen
    · simp only [buildKeys, if_pos hk]
      rw [ih keys seen, List.filter_cons_of_neg (by simp [hk])]
    · simp only [buildKeys, if_neg hk]
      rw [ih (keys ++ [k]) (k :: seen), List.filter_cons_of_pos (by simp [hk])]
      rw [dedupFS, List.filter_filter, List.append_assoc, List.singleton_append]
      have hfil : rest.filter (fun x => decide (x ∉ k :: seen)) =
          rest.filter (fun a => decide (a ≠ k) && decide (a ∉ seen)) :=
        List.filter_congr (fun x _ => by
          by_cases h1 : x = k <;> by_cases h2 : x ∈ seen <;> simp [h1, h2])
      rw [hfil]

theorem dedupKeys_eq_dedupFS (l : List String) : dedupKeys l = dedupFS l := by
  rw [dedupKeys, buildKeys_eq]
  have hfil : l.filter (fun x => decide (x ∉ ([] : List String))) = l :=
    List.filter_congr (fun x _ => by simp) |>.trans (List.filter_true l)
  simp only [List.nil_append]
  rw [hfil]

theorem dedupKeys_nodup (l : List String) : (dedupKeys l).Nodup := by
  rw [dedupKeys_eq_dedupFS]; exact dedupFS_nodup l

theorem dedupKeys_mem (l : List String) (x : String) : x ∈ dedupKeys l ↔ x ∈ l := by
  rw [dedupKeys_eq_dedupFS]; exact dedupFS_mem l x

theorem dedupKeys_sublist (l : List String) : List.Sublist (dedupKeys l) l := by
  rw [dedupKeys_eq_dedupFS]; exact dedupFS_sublist l

theorem dedupKeys_pairwise (l : List String) :
    (dedupKeys l).Pairwise (fun x y => l.indexOf x < l.indexOf y) := by
  rw [dedupKeys_eq_dedupFS]; exact dedupFS_pairwise l

/-! ## The staggered fleet launch -/

theorem launchFrom_filterMap (keys : List String) (g : Nat → Nat) :
    ∀ rem i, i + rem = keys.length →
      (launchFrom keys g i rem).filterMap FleetEvent.launchKey = keys.drop i := by
  intro rem
  induction rem with
  | zero =>
    intro i hi
    have h0 : i = keys.length := by omega
    subst h0
    simp [launchFrom, List.drop_length]
  | succ rem ih =>
    intro i hi
    have hlen : i < keys.length := by omega
    simp only [launchFrom]
    by_cases hlt : i < keys.length - 1
    · rw [if_pos hlt]
      simp only [List.filterMap_cons, FleetEvent.launchKey]
      rw [ih (i + 1) (by omega), List.drop_eq_getElem_cons hlen]
      congr 1
      simp [List.getD_eq_getElem?_getD, List.getElem?_eq_getElem hlen]
    · rw [if_neg hlt]
      simp only [List.filterMap_cons, FleetEvent.launchKey]
      rw [ih (i + 1) (by omega), List.drop_eq_getElem_cons hlen]
      congr 1
      simp [List.getD_eq_getElem?_getD, List.getElem?_eq_getElem hlen]

theorem launchFrom_length (keys : List String) (g : Nat → Nat) :
    ∀ rem i, i + rem = keys.length → 1 ≤ rem →
      (launchFrom keys g i rem).length = 2 * rem - 1 := by
  intro rem
  induction rem with
  | zero => intro i _ h; omega
  | succ rem ih =>
    intro i hi _
    simp only [launchFrom]
    by_cases hlt : i < keys.length - 1
    · rw [if_pos hlt]
      have hrem : 1 ≤ rem := by omega
      simp only [List.length_cons]
      rw [ih (i + 1) (by omega) hrem]
      omega
    · rw [if_neg hlt]
      have hrem : rem = 0 := by omega
      subst hrem
      simp [launchFrom]

theorem launchFrom_get_even (keys : List String) (g : Nat → Nat) :
    ∀ rem i j, i + rem = keys.length → j < rem →
      (launchFrom keys g i rem)[2 * j]? =
        some (.launch (i + j) (keys.getD (i + j) "")) := by
  intro rem
  induction rem with
  | zero => intro i j _ h; omega
  | succ rem ih =>
    intro i j hi hj
    simp only [launchFrom]
    by_cases hlt : i < keys.length - 1
    · rw [if_pos hlt]
      cases j with
      | zero => simp
      | succ j2 =>
        have h2 : 2 * (j2 + 1) = 2 * j2 + 1 + 1 := by omega
        rw [h2]
        simp only [List.getElem?_cons_succ]
        rw [ih (i + 1) j2 (by omega) (by omega)]
        have h3 : i + 1 + j2 = i + (j2 + 1) := by omega
        rw [h3]
    · rw [if_neg hlt]
      have hj0 : j = 0 := by omega
      subst hj0
      simp

theorem launchFrom_get_odd (keys : List String) (g : Nat → Nat) :
    ∀ rem i j, i + rem = keys.length → j + 1 < rem →
      (launchFrom keys g i rem)[2 * j + 1]? =
        some (.grace (i + j) (randint 30 45 (g (i + j)))) := by
  intro rem
  induction rem with
  | zero => intro i j _ h; omega
  | succ rem ih =>
    intro i j hi hj
    have hlt : i < keys.length - 1 := by omega
    simp only [launchFrom, if_pos hlt]
    cases j with
    | zero => simp
    | succ j2 =>
      have h2 : 2 * (j2 + 1) + 1 = 2 * j2 + 1 + 1 + 1 := by omega
      rw [h2]
      simp only [List.getElem?_cons_succ]
      rw [ih (i + 1) j2 (by omega) (by omega)]
      have h3 : i + 1 + j2 = i + (j2 + 1) := by omega
      rw [h3]

theorem launchFrom_countP_grace (keys : List String) (g : Nat → Nat) :
    ∀ rem i, i + rem = keys.length →
      (launchFrom keys g i rem).countP FleetEvent.isGrace = rem - 1 := by
  intro rem
  induction rem with
  | zero => intro i _; simp [launchFrom]
  | succ rem ih =>
    intro i hi
    simp only [launchFrom]
    by_cases hlt : i < keys.length - 1
    · rw [if_pos hlt]
      simp only [List.countP_cons, FleetEvent.isGrace]
      rw [ih (i + 1) (by omega)]
      have hrem : 1 ≤ rem := by omega
      simp
      omega
    · rw [if_neg hlt]
      have hrem : rem = 0 := by omega
      subst hrem
      simp [launchFrom, List.countP_cons, FleetEvent.isGrace]

theorem launchFrom_grace_mem (keys : List String) (g : Nat → Nat) :
    ∀ rem i i2 d, FleetEvent.grace i2 d ∈ launchFrom keys g i rem →
      d = randint 30 45 (g i2) ∧ i2 < keys.length - 1 := by
  intro rem
  induction rem with
  | zero => intro i i2 d h; simp [launchFrom] at h
  | succ rem ih =>
    intro i i2 d h
    simp only [launchFrom] at h
    by_cases hlt : i < keys.length - 1
    · rw [if_pos hlt] at h
      simp only [List.mem_cons] at h
      rcases h with h | h | h
      · exact absurd h (by simp)
      · rw [FleetEvent.grace.injEq] at h
        obtain ⟨rfl, rfl⟩ := h
        exact ⟨rfl, hlt⟩
      · exact ih (i + 1) i2 d h
    · rw [if_neg hlt] at h
      simp only [List.mem_cons] at h
      rcases h with h | h
      · exact absurd h (by simp)
      · exact ih (i + 1) i2 d h

/-! ## Claim theorems -/

/-- C1: For every input credential list (environment-derived plus
CLI-supplied), the fleet supervisor launches exactly one lifecycle loop per
unique credential: the roster is the first-seen deduplication of the input,
it has no duplicates, it has exactly the input's members, its order is the
order of first occurrence in the input, and the launch events launch
exactly the roster's credentials in roster order. -/
theorem C1_fleet_unique_credentials (envKeys : List String) (a : Args)
    (keys : List String) (g : Nat → Nat)
    (h : mainValidate envKeys a = .ok keys) :
    keys = dedupKeys (envKeys ++ a.keys) ∧
    keys.Nodup ∧
    (∀ x, x ∈ keys ↔ x ∈ envKeys ++ a.keys) ∧
    keys.Pairwise (fun x y =>
      (envKeys ++ a.keys).indexOf x < (envKeys ++ a.keys).indexOf y) ∧
    (launchFleet keys g).filterMap FleetEvent.launchKey = keys := by
  have hk : keys = dedupKeys (envKeys ++ a.keys) := by
    unfold mainValidate at h
    split_ifs at h with h1 h2
    simp only [List.isEmpty_iff] at h
    by_cases h3 : dedupKeys (envKeys ++ a.keys) = []
    · rw [if_pos h3] at h
      simp at h
    · rw [if_neg h3] at h
      rw [Except.ok.injEq] at h
      exact h.symm
  subst hk
  refine ⟨rfl, dedupKeys_nodup _, fun x => dedupKeys_mem _ x, dedupKeys_pairwise _, ?_⟩
  have hfm := launchFrom_filterMap (dedupKeys (envKeys ++ a.keys)) g
    (dedupKeys (envKeys ++ a.keys)).length 0 (by omega)
  simpa [launchFleet] using hfm

/-- C1 witness: a concrete credential list with duplicates across the
environment and CLI sources. -/
theorem C1_witness :
    (["a", "b", "c"] : List String) = dedupKeys (["a", "b", "a"] ++ ["b", "c"]) ∧
    (["a", "b", "c"] : List String).Nodup ∧
    (∀ x, x ∈ (["a", "b", "c"] : List String) ↔ x ∈ ["a", "b", "a"] ++ ["b", "c"]) ∧
    (["a", "b", "c"] : List String).Pairwise (fun x y =>
      ((["a", "b", "a"] ++ ["b", "c"]) : List String).indexOf x <
        ((["a", "b", "a"] ++ ["b", "c"]) : List String).indexOf y) ∧
    (launchFleet ["a", "b", "c"] (fun _ => 0)).filterMap FleetEvent.launchKey =
      ["a", "b", "c"] :=
  C1_fleet_unique_credentials ["a", "b", "a"]
    { keys := ["b", "c"], runTimeMin := 230, runTimeMax := 340,
      downtimeMin := 30, downtimeMax := 45 }
    ["a", "b", "c"] (fun _ => 0) rfl

/-- C2: A connect phase abandons its credential exactly when all
`MAX_CONNECTION_ATTEMPTS` (10) consecutive attempts of that phase fail;
in that case its events hold exactly 10 failed attempts, exactly 9
inter-attempt cooldowns, and no session creation, and the lifecycle loop
at that cycle emits the connect events followed by the abandonment and
terminates.  Both the oracle and the cycle index are arbitrary, so every
call into the connect phase starts a fresh 10-attempt budget regardless
of the failures of earlier cycles. -/
theorem C2_abandonment_budget (o : Oracle) (cfg : TimingConfig) (c fuel : Nat) :
    ((connectPhase c (o.connectOutcome c) (o.failCoolRand c)).1 = .abandoned ↔
      ∀ i, i < MAX_CONNECTION_ATTEMPTS → o.connectOutcome c i = none) ∧
    ((∀ i, i < MAX_CONNECTION_ATTEMPTS → o.connectOutcome c i = none) →
      (connectPhase c (o.connectOutcome c) (o.failCoolRand c)).2.countP
          Event.isAttemptFail = MAX_CONNECTION_ATTEMPTS ∧
      (connectPhase c (o.connectOutcome c) (o.failCoolRand c)).2.countP
          Event.isFailSleep = MAX_CONNECTION_ATTEMPTS - 1 ∧
      (connectPhase c (o.connectOutcome c) (o.failCoolRand c)).2.countP
          Event.isSessionCreated = 0 ∧
      lifecycleFrom o cfg c (fuel + 1) =
        ((connectPhase c (o.connectOutcome c) (o.failCoolRand c)).2 ++
          [.abandon c], true)) := by
  refine ⟨connectPhase_abandoned_iff c _ _, fun h => ?_⟩
  obtain ⟨h1, h2, h3⟩ := connectPhase_allfail_counts c _ _ h
  exact ⟨h1, h2, h3, lifecycle_allfail_eq o cfg c fuel h⟩

/-- C3: Over any lifecycle trace, the session-liveness scan from zero
never creates a session while one is live and never releases a session
that is not live (so at most one session is live per credential at any
time), and every cycle that acquires a session releases it before that
cycle's inter-cycle cooldown sleep, whatever the cycle's outcome. -/
theorem C3_session_release_discipline (o : Oracle) (cfg : TimingConfig) (fuel : Nat) :
    checkLive 0 (lifecycleTrace o cfg fuel) = true ∧
    (∀ c, Event.sessionCreated c ∈ lifecycleTrace o cfg fuel →
      Event.sessionReleased c ∈
        (lifecycleTrace o cfg fuel).takeWhile (fun e => !(e.isCooldownOf c))) :=
  ⟨lifecycle_checkLive o cfg fuel 0,
    fun c hc => lifecycle_released_before_cooldown o cfg fuel 0 c hc⟩

/-- C4: Every timed run cycle is classified exactly as in the code:
exit code 0 yields Success, a nonzero exit code yields Failed with that
code, a deadline reached with the command still executing yields
TimedOutRunning (recorded as a normal cycle outcome followed by the
session release, not as an error), and every reported output preview is
the first at most 500 characters of the captured output. -/
theorem C4_outcome_classification (code : Int) (out err : List Char) :
    classifyOutcome (.finished 0 out err) =
      .success (outputPreview out) (outputPreview err) ∧
    (code ≠ 0 → classifyOutcome (.finished code out err) =
      .failed code (outputPreview out) (outputPreview err)) ∧
    classifyOutcome .stillRunning = .timedOutRunning ∧
    (∀ c2, runCycleEvents c2 (.ok .stillRunning) =
      [.cycleOutcome c2 .timedOutRunning, .sessionReleased c2]) ∧
    (outputPreview out).length = min 500 out.length ∧
    (outputPreview out).length ≤ 500 := by
  refine ⟨by simp [classifyOutcome], fun hc => by simp [classifyOutcome, hc], rfl,
    fun c2 => by simp [runCycleEvents, classifyOutcome], ?_, ?_⟩
  · simp [outputPreview]
  · simp [outputPreview]

/-- C5: An exception raised while starting or observing the workload
command is contained in its cycle: the session is still released, the
cycle error is recorded, the inter-cycle cooldown still happens, and the
loop continues with the next cycle exactly as if the cycle had ended
normally (its trace and termination flag are those of the remaining
iterations). -/
theorem C5_exception_contained (o : Oracle) (cfg : TimingConfig) (c fuel : Nat)
    (s : Session) (hb : o.cycleBehavior c = .raises)
    (hc : (connectPhase c (o.connectOutcome c) (o.failCoolRand c)).1 =
      .exited (some s)) :
    lifecycleFrom o cfg c (fuel + 1) =
      ((connectPhase c (o.connectOutcome c) (o.failCoolRand c)).2 ++
        .runDrawn c (randint cfg.runTimeMin cfg.runTimeMax (o.runRand c)) ::
        .downDrawn c (randint cfg.downtimeMin cfg.downtimeMax (o.downRand c)) ::
        .sessionReleased c ::
        .cycleOutcome c .cycleError ::
        .cooldownSleep c (randint cfg.downtimeMin cfg.downtimeMax (o.downRand c)) ::
        (lifecycleFrom o cfg (c + 1) fuel).1,
       (lifecycleFrom o cfg (c + 1) fuel).2) := by
  rcases lifecycleFrom_succ o cfg c fuel with ⟨hab, heq⟩ | ⟨⟨s2, hs⟩, heq⟩
  · rw [hc] at hab
    exact absurd hab (by simp)
  · rw [heq, hb]
    simp [runCycleEvents]

/-- C5 witness: a concrete oracle whose first connection attempt succeeds
and whose command phase raises; one lifecycle iteration still releases
the session, records the cycle error, and sleeps the cooldown. -/
theorem C5_witness :
    lifecycleFrom
      { connectOutcome := fun _ _ => some ⟨0⟩, failCoolRand := fun _ _ => 0,
        runRand := fun _ => 0, downRand := fun _ => 0,
        cycleBehavior := fun _ => .raises }
      { runTimeMin := 230, runTimeMax := 340, downtimeMin := 30, downtimeMax := 45 }
      0 1 =
    ([Event.sessionCreated 0, Event.runDrawn 0 230, Event.downDrawn 0 30,
      Event.sessionReleased 0, Event.cycleOutcome 0 .cycleError,
      Event.cooldownSleep 0 30], false) :=
  C5_exception_contained
    { connectOutcome := fun _ _ => some ⟨0⟩, failCoolRand := fun _ _ => 0,
      runRand := fun _ => 0, downRand := fun _ => 0,
      cycleBehavior := fun _ => .raises }
    { runTimeMin := 230, runTimeMax := 340, downtimeMin := 30, downtimeMax := 45 }
    0 0 ⟨0⟩ rfl rfl

/-- C6: If the run-time minimum exceeds the run-time maximum, or the
downtime minimum exceeds the downtime maximum, or the deduplicated
credential list is empty, startup validation reports a configuration
error and the supervisor produces that error instead of any fleet
launch. -/
theorem C6_config_fail_fast (envKeys : List String) (a : Args) (g : Nat → Nat)
    (h : a.runTimeMin > a.runTimeMax ∨ a.downtimeMin > a.downtimeMax ∨
      dedupKeys (envKeys ++ a.keys) = []) :
    ∃ e, mainValidate envKeys a = .error e ∧ mainAsync envKeys a g = .error e := by
  by_cases h1 : a.runTimeMin > a.runTimeMax
  · exact ⟨.runMinGtMax, by simp [mainValidate, h1],
      by simp [mainAsync, mainValidate, h1, Except.map]⟩
  · by_cases h2 : a.downtimeMin > a.downtimeMax
    · exact ⟨.downMinGtMax, by simp [mainValidate, h1, h2],
        by simp [mainAsync, mainValidate, h1, h2, Except.map]⟩
    · have h3 : dedupKeys (envKeys ++ a.keys) = [] := by tauto
      exact ⟨.noKeys, by simp [mainValidate, h1, h2, h3],
        by simp [mainAsync, mainValidate, h1, h2, h3, Except.map]⟩

/-- C6 witness: run-time bounds with minimum above maximum are rejected
at startup. -/
theorem C6_witness :
    ∃ e, mainValidate []
        { keys := [], runTimeMin := 340, runTimeMax := 230,
          downtimeMin := 30, downtimeMax := 45 } = .error e ∧
      mainAsync []
        { keys := [], runTimeMin := 340, runTimeMax := 230,
          downtimeMin := 30, downtimeMax := 45 } (fun _ => 0) = .error e :=
  C6_config_fail_fast []
    { keys := [], runTimeMin := 340, runTimeMax := 230,
      downtimeMin := 30, downtimeMax := 45 }
    (fun _ => 0) (Or.inl (by decide))

/-- C7: Every inter-attempt cooldown sleep in a lifecycle trace belongs
to a non-final attempt (index below MAX_CONNECTION_ATTEMPTS − 1) and
lasts between 60 and 250 seconds inclusive, and every failed non-final
attempt is followed by such a sleep; no sleep is recorded for the final
failed attempt. -/
theorem C7_retry_cooldown_bounds (o : Oracle) (cfg : TimingConfig) (fuel : Nat) :
    (∀ c a d, Event.failSleep c a d ∈ lifecycleTrace o cfg fuel →
      a < MAX_CONNECTION_ATTEMPTS - 1 ∧ 60 ≤ d ∧ d ≤ 250) ∧
    (∀ c a, Event.attemptFail c a ∈ lifecycleTrace o cfg fuel →
      a < MAX_CONNECTION_ATTEMPTS - 1 →
      ∃ d, Event.failSleep c a d ∈ lifecycleTrace o cfg fuel ∧
        60 ≤ d ∧ d ≤ 250) := by
  constructor
  · intro c a d h
    obtain ⟨hd, hlt⟩ := lifecycle_failSleep_mem o cfg fuel 0 c a d h
    have hb := randint_bounds 60 250 (o.failCoolRand c a) (by omega)
    exact ⟨hlt, hd ▸ hb.1, hd ▸ hb.2⟩
  · intro c a h ha
    refine ⟨randint 60 250 (o.failCoolRand c a),
      lifecycle_attemptFail_sleep o cfg fuel 0 c a h ha, ?_, ?_⟩
    · exact (randint_bounds 60 250 _ (by omega)).1
    · exact (randint_bounds 60 250 _ (by omega)).2

/-- C8: Assuming each timing minimum is at most its maximum, every run
duration drawn lies in [runTimeMin, runTimeMax], every downtime drawn and
every cooldown slept lies in [downtimeMin, downtimeMax], every cycle that
acquires a session draws a run duration, and each cycle draws its run
duration at most once. -/
theorem C8_cycle_duration_bounds (o : Oracle) (cfg : TimingConfig) (fuel : Nat)
    (hrun : cfg.runTimeMin ≤ cfg.runTimeMax)
    (hdown : cfg.downtimeMin ≤ cfg.downtimeMax) :
    (∀ c d, Event.runDrawn c d ∈ lifecycleTrace o cfg fuel →
      cfg.runTimeMin ≤ d ∧ d ≤ cfg.runTimeMax) ∧
    (∀ c d, Event.downDrawn c d ∈ lifecycleTrace o cfg fuel →
      cfg.downtimeMin ≤ d ∧ d ≤ cfg.downtimeMax) ∧
    (∀ c d, Event.cooldownSleep c d ∈ lifecycleTrace o cfg fuel →
      cfg.downtimeMin ≤ d ∧ d ≤ cfg.downtimeMax) ∧
    (∀ c, Event.sessionCreated c ∈ lifecycleTrace o cfg fuel →
      ∃ d, Event.runDrawn c d ∈ lifecycleTrace o cfg fuel) ∧
    (∀ c, (lifecycleTrace o cfg fuel).countP (Event.isRunDrawnOf c) ≤ 1) := by
  refine ⟨?_, ?_, ?_, ?_, ?_⟩
  · intro c d h
    have hd := lifecycle_runDrawn_mem o cfg fuel 0 c d h
    have hb := randint_bounds _ _ (o.runRand c) hrun
    exact ⟨hd ▸ hb.1, hd ▸ hb.2⟩
  · intro c d h
    have hd := lifecycle_downDrawn_mem o cfg fuel 0 c d h
    have hb := randint_bounds _ _ (o.downRand c) hdown
    exact ⟨hd ▸ hb.1, hd ▸ hb.2⟩
  · intro c d h
    have hd := lifecycle_cooldown_mem o cfg fuel 0 c d h
    have hb := randint_bounds _ _ (o.downRand c) hdown
    exact ⟨hd ▸ hb.1, hd ▸ hb.2⟩
  · intro c h
    exact ⟨_, lifecycle_created_runDrawn o cfg fuel 0 c h⟩
  · intro c
    exact lifecycle_countP_runDrawn o cfg fuel 0 c

/-- C8 witness: the default timing bounds of the program at fuel 0. -/
theorem C8_witness :
    (∀ c d, Event.runDrawn c d ∈ lifecycleTrace
        { connectOutcome := fun _ _ => none, failCoolRand := fun _ _ => 0,
          runRand := fun _ => 0, downRand := fun _ => 0,
          cycleBehavior := fun _ => .raises }
        { runTimeMin := 230, runTimeMax := 340, downtimeMin := 30, downtimeMax := 45 }
        0 → 230 ≤ d ∧ d ≤ 340) ∧
    (∀ c d, Event.downDrawn c d ∈ lifecycleTrace
        { connectOutcome := fun _ _ => none, failCoolRand := fun _ _ => 0,
          runRand := fun _ => 0, downRand := fun _ => 0,
          cycleBehavior := fun _ => .raises }
        { runTimeMin := 230, runTimeMax := 340, downtimeMin := 30, downtimeMax := 45 }
        0 → 30 ≤ d ∧ d ≤ 45) ∧
    (∀ c d, Event.cooldownSleep c d ∈ lifecycleTrace
        { connectOutcome := fun _ _ => none, failCoolRand := fun _ _ => 0,
          runRand := fun _ => 0, downRand := fun _ => 0,
          cycleBehavior := fun _ => .raises }
        { runTimeMin := 230, runTimeMax := 340, downtimeMin := 30, downtimeMax := 45 }
        0 → 30 ≤ d ∧ d ≤ 45) ∧
    (∀ c, Event.sessionCreated c ∈ lifecycleTrace
        { connectOutcome := fun _ _ => none, failCoolRand := fun _ _ => 0,
          runRand := fun _ => 0, downRand := fun _ => 0,
          cycleBehavior := fun _ => .raises }
        { runTimeMin := 230, runTimeMax := 340, downtimeMin := 30, downtimeMax := 45 }
        0 → ∃ d, Event.runDrawn c d ∈ lifecycleTrace
          { connectOutcome := fun _ _ => none, failCoolRand := fun _ _ => 0,
            runRand := fun _ => 0, downRand := fun _ => 0,
            cycleBehavior := fun _ => .raises }
          { runTimeMin := 230, runTimeMax := 340, downtimeMin := 30, downtimeMax := 45 }
          0) ∧
    (∀ c, (lifecycleTrace
        { connectOutcome := fun _ _ => none, failCoolRand := fun _ _ => 0,
          runRand := fun _ => 0, downRand := fun _ => 0,
          cycleBehavior := fun _ => .raises }
        { runTimeMin := 230, runTimeMax := 340, downtimeMin := 30, downtimeMax := 45 }
        0).countP (Event.isRunDrawnOf c) ≤ 1) :=
  C8_cycle_duration_bounds
    { connectOutcome := fun _ _ => none, failCoolRand := fun _ _ => 0,
      runRand := fun _ => 0, downRand := fun _ => 0,
      cycleBehavior := fun _ => .raises }
    { runTimeMin := 230, runTimeMax := 340, downtimeMin := 30, downtimeMax := 45 }
    0 (by decide) (by decide)

/-- C9: For every nonempty roster of N credentials, the launch sequence
holds exactly N−1 grace-period sleeps, each between 30 and 45 seconds and
each indexed below N−1; the sequence has 2N−1 events, event 2j is the
launch of loop j (so no sleep precedes the first launch), and event 2j+1
is the grace period after launch j (one after each launch except the
last). -/
theorem C9_stagger_delays (keys : List String) (g : Nat → Nat) (h : keys ≠ []) :
    (launchFleet keys g).countP FleetEvent.isGrace = keys.length - 1 ∧
    (∀ i d, FleetEvent.grace i d ∈ launchFleet keys g →
      30 ≤ d ∧ d ≤ 45 ∧ i < keys.length - 1) ∧
    (launchFleet keys g).length = 2 * keys.length - 1 ∧
    (∀ j, j < keys.length →
      (launchFleet keys g)[2 * j]? = some (.launch j (keys.getD j ""))) ∧
    (∀ j, j + 1 < keys.length →
      (launchFleet keys g)[2 * j + 1]? = some (.grace j (randint 30 45 (g j)))) := by
  have hlen : 1 ≤ keys.length := by
    cases keys with
    | nil => exact absurd rfl h
    | cons a t => simp
  refine ⟨launchFrom_countP_grace keys g keys.length 0 (by omega), ?_,
    launchFrom_length keys g keys.length 0 (by omega) hlen, ?_, ?_⟩
  · intro i d hm
    obtain ⟨hd, hi⟩ := launchFrom_grace_mem keys g keys.length 0 i d hm
    have hb := randint_bounds 30 45 (g i) (by omega)
    exact ⟨hd ▸ hb.1, hd ▸ hb.2, hi⟩
  · intro j hj
    have hg := launchFrom_get_even keys g keys.length 0 j (by omega) hj
    simpa using hg
  · intro j hj
    have hg := launchFrom_get_odd keys g keys.length 0 j (by omega) (by omega)
    simpa using hg

/-- C9 witness: a fleet of two credentials has exactly one grace period,
placed between the two launches. -/
theorem C9_witness :
    (launchFleet ["k1", "k2"] (fun _ => 0)).countP FleetEvent.isGrace =
      (["k1", "k2"] : List String).length - 1 ∧
    (∀ i d, FleetEvent.grace i d ∈ launchFleet ["k1", "k2"] (fun _ => 0) →
      30 ≤ d ∧ d ≤ 45 ∧ i < (["k1", "k2"] : List String).length - 1) ∧
    (launchFleet ["k1", "k2"] (fun _ => 0)).length =
      2 * (["k1", "k2"] : List String).length - 1 ∧
    (∀ j, j < (["k1", "k2"] : List String).length →
      (launchFleet ["k1", "k2"] (fun _ => 0))[2 * j]? =
        some (.launch j ((["k1", "k2"] : List String).getD j ""))) ∧
    (∀ j, j + 1 < (["k1", "k2"] : List String).length →
      (launchFleet ["k1", "k2"] (fun _ => 0))[2 * j + 1]? =
        some (.grace j (randint 30 45 ((fun _ => 0) j)))) :=
  C9_stagger_delays ["k1", "k2"] (fun _ => 0) (by simp)

/-- C10: The connection retry loop never reaches the code after the loop
without a session instance: its result is never an exit with no instance,
and consequently the safeguard return after the retry loop is unreachable
in every lifecycle trace. -/
theorem C10_safeguard_unreachable (cy : Nat) (oc : Nat → Option Session)
    (r : Nat → Nat) (o : Oracle) (cfg : TimingConfig) (c fuel : Nat) :
    (connectPhase cy oc r).1 ≠ .exited none ∧
    Event.safeguardReturn c ∉ lifecycleTrace o cfg fuel :=
  ⟨connectPhase_ne_exited_none cy oc r, lifecycle_safeguard_not_mem o cfg fuel 0 c⟩
